import Mathlib

/-!
Verification of the complexity-estimator formulas of the CryptographicEstimators
excerpt: the F5 Gröbner-basis estimator for MQ problems, the two
Ourivski-Johansson rank-syndrome-decoding estimators OJ1 and OJ2, and the
permutation-equivalence problem model PE.

All complexities are base-2 logarithms, modelled over `ℝ` with `Real.logb 2`.
Python functions that can raise are embedded as `Option`-valued functions
(`none` = the call raises).
-/

open Real

namespace CryptographicEstimators

/-- Inputs of an `F5` estimator instance at the time a complexity hook runs.
`n`, `m`, `q` are the reduced parameters returned by `get_reduced_parameters`;
`qRaw` is `problem.order_of_the_field()`; `ncols` is the memoized Macaulay
column count `_get_number_of_columns_at_degree_of_regularity`; `nsolutions`
is `problem.nsolutions`; `h` and `w` are the hybridization tuning parameter
and the linear-algebra constant; `underdefined` is the value of
`problem.is_underdefined_system()`.  The quantities computed outside the
excerpt (the problem reduction, the degree of regularity and the monomial
count) enter as abstract fields, so the theorems quantify over them. -/
structure F5State where
  n : ℕ
  m : ℕ
  q : ℕ
  ncols : ℕ
  nsolutions : ℕ
  h : ℝ
  w : ℝ
  underdefined : Bool

/-- Embedding of `F5._time_complexity_fglm`:
`h * log2(q) + log2(n * D ** 3)` with `D = 2 ** nsolutions`. -/
noncomputable def F5.time_complexity_fglm (s : F5State) : ℝ :=
  s.h * logb 2 (s.q : ℝ) + logb 2 ((s.n * (2 ^ s.nsolutions) ^ 3 : ℕ) : ℝ)

/-- Embedding of `F5._compute_time_complexity`: raises when the system is
underdefined, otherwise returns
`h * log2(q) + max(w * log2(ncols) + log2(m), _time_complexity_fglm())`. -/
noncomputable def F5.compute_time_complexity (s : F5State) : Option ℝ :=
  if s.underdefined then none
  else some (s.h * logb 2 (s.q : ℝ) +
    max (s.w * logb 2 (s.ncols : ℝ) + logb 2 (s.m : ℝ)) (F5.time_complexity_fglm s))

/-- Embedding of `F5._compute_memory_complexity`:
`max(log2(ncols) * 2, log2(m * n ** 2))`.  The source performs no
underdefined-system check here, so the function is total (always `some`). -/
noncomputable def F5.compute_memory_complexity (s : F5State) : Option ℝ :=
  some (max (logb 2 (s.ncols : ℝ) * 2) (logb 2 ((s.m * s.n ^ 2 : ℕ) : ℝ)))

/-- Embedding of `F5._tilde_o_time_complexity_fglm`:
`h * log2(q) + log2(D ** 3)`, using the raw field order. -/
noncomputable def F5.tilde_o_time_complexity_fglm (s : F5State) : ℝ :=
  s.h * logb 2 (s.q : ℝ) + logb 2 (((2 ^ s.nsolutions) ^ 3 : ℕ) : ℝ)

/-- Embedding of `F5._compute_tilde_o_time_complexity`: raises when the system
is underdefined, otherwise
`h * log2(q) + max(w * log2(ncols), _tilde_o_time_complexity_fglm())`.
The source reads `q` from `problem.order_of_the_field()`; the problem
reduction never changes the field order, so the same `q` field is used. -/
noncomputable def F5.compute_tilde_o_time_complexity (s : F5State) : Option ℝ :=
  if s.underdefined then none
  else some (s.h * logb 2 (s.q : ℝ) +
    max (s.w * logb 2 (s.ncols : ℝ)) (F5.tilde_o_time_complexity_fglm s))

/-- Embedding of `F5._compute_tilde_o_memory_complexity`: `log2(ncols) * 2`. -/
noncomputable def F5.compute_tilde_o_memory_complexity (s : F5State) : Option ℝ :=
  some (logb 2 (s.ncols : ℝ) * 2)

/-- The classical time-complexity formula exactly as claim C1 states it
(hybridization term added once, FGLM branch inside the max equal to
`log2(n * D^3)`), to be compared with the embedded source function. -/
noncomputable def F5.time_complexity_claimed (s : F5State) : ℝ :=
  s.h * logb 2 (s.q : ℝ) +
    max (s.w * logb 2 (s.ncols : ℝ) + logb 2 (s.m : ℝ))
      (logb 2 ((s.n * (2 ^ s.nsolutions) ^ 3 : ℕ) : ℝ))

/-- C1 counterexample: at `n = 1, m = 1, q = 2, ncols = 1, nsolutions = 10,
h = 1, w = 3`, not underdefined, the source computes `1 + max 0 31 = 32`
(because `_time_complexity_fglm` itself already contains `h·log2 q`), while
the claimed formula gives `1 + max 0 30 = 31`. -/
theorem F5_time_hybridization_counterexample :
    F5.compute_time_complexity ⟨1, 1, 2, 1, 10, 1, 3, false⟩ ≠
      some (F5.time_complexity_claimed ⟨1, 1, 2, 1, 10, 1, 3, false⟩) := by
  have e2 : logb 2 (2 : ℝ) = 1 := logb_self_eq_one (by norm_num)
  have epow : ((1 * (2 ^ 10) ^ 3 : ℕ) : ℝ) = (2 : ℝ) ^ 30 := by norm_num
  simp only [F5.compute_time_complexity, F5.time_complexity_fglm,
    F5.time_complexity_claimed, Bool.false_eq_true, if_false, ne_eq,
    Option.some.injEq]
  rw [epow, logb_pow, e2]
  norm_num [Real.logb_one]

/-- C1 (amended): for every non-underdefined input state, the classical time
complexity of F5 equals
`h·log2 q + max (w·log2 ncols + log2 m) (h·log2 q + log2 (n·D³))` with
`D = 2^nsolutions`: the FGLM branch inside the `max` carries its own copy of
the hybridization term, so `h·log2 q` is counted twice along that branch. -/
theorem F5_time_complexity_closed_form (s : F5State) (hu : s.underdefined = false) :
    F5.compute_time_complexity s =
      some (s.h * logb 2 (s.q : ℝ) +
        max (s.w * logb 2 (s.ncols : ℝ) + logb 2 (s.m : ℝ))
          (s.h * logb 2 (s.q : ℝ) + logb 2 ((s.n * (2 ^ s.nsolutions) ^ 3 : ℕ) : ℝ))) := by
  simp [F5.compute_time_complexity, F5.time_complexity_fglm, hu]

/-- Witness for C1's amended theorem at a concrete non-underdefined state. -/
theorem F5_time_complexity_closed_form_witness :
    (⟨1, 1, 2, 1, 10, 1, 3, false⟩ : F5State).underdefined = false ∧
    F5.compute_time_complexity ⟨1, 1, 2, 1, 10, 1, 3, false⟩ =
      some ((1 : ℝ) * logb 2 ((2 : ℕ) : ℝ) +
        max ((3 : ℝ) * logb 2 ((1 : ℕ) : ℝ) + logb 2 ((1 : ℕ) : ℝ))
          ((1 : ℝ) * logb 2 ((2 : ℕ) : ℝ) + logb 2 ((1 * (2 ^ 10) ^ 3 : ℕ) : ℝ))) :=
  ⟨rfl, F5_time_complexity_closed_form ⟨1, 1, 2, 1, 10, 1, 3, false⟩ rfl⟩

/-- C2 counterexample: at an underdefined state (`underdefined = true`, with
`n = 1, m = 2, ncols = 2`), the time computation raises (`none`) but the
memory computation returns the number `2`: the source's
`_compute_memory_complexity` contains no underdefined-system check, so the
claim that *both* computations raise is false. -/
theorem F5_memory_underdefined_counterexample :
    (⟨1, 2, 2, 2, 0, 0, 2, true⟩ : F5State).underdefined = true ∧
    F5.compute_time_complexity ⟨1, 2, 2, 2, 0, 0, 2, true⟩ = none ∧
    F5.compute_memory_complexity ⟨1, 2, 2, 2, 0, 0, 2, true⟩ = some 2 := by
  refine ⟨rfl, rfl, ?_⟩
  have e2 : logb 2 (2 : ℝ) = 1 := logb_self_eq_one (by norm_num)
  simp only [F5.compute_memory_complexity, Option.some.injEq]
  norm_num [e2]

/-- C2 (amended): for every underdefined input state, F5's time-complexity
computation raises, but its memory-complexity computation performs no such
check and returns a value. -/
theorem F5_underdefined_time_raises_memory_returns (s : F5State)
    (hu : s.underdefined = true) :
    F5.compute_time_complexity s = none ∧
    ∃ v : ℝ, F5.compute_memory_complexity s = some v := by
  refine ⟨by simp [F5.compute_time_complexity, hu], ⟨_, rfl⟩⟩

/-- Witness for C2's amended theorem at a concrete underdefined state. -/
theorem F5_underdefined_time_raises_memory_returns_witness :
    (⟨3, 2, 2, 2, 0, 0, 2, true⟩ : F5State).underdefined = true ∧
    (F5.compute_time_complexity ⟨3, 2, 2, 2, 0, 0, 2, true⟩ = none ∧
      ∃ v : ℝ, F5.compute_memory_complexity ⟨3, 2, 2, 2, 0, 0, 2, true⟩ = some v) :=
  ⟨rfl, F5_underdefined_time_raises_memory_returns ⟨3, 2, 2, 2, 0, 0, 2, true⟩ rfl⟩

/-- Embedding of the `degrees` handling in `F5.__init__`: with `m` the raw
equation count `problem.npolynomials()` and `mReduced` the reduced count
`npolynomials_reduced()`, the constructor reads
`degrees = kwargs.get('degrees', [2]*m)`, raises (`none`) when
`len(degrees) != m`, and otherwise stores `[2]*mReduced` when the default was
used (or an equal list passed) and the explicit list otherwise. -/
def F5.init_degrees (m mReduced : ℕ) (degreesOpt : Option (List ℕ)) :
    Option (List ℕ) :=
  let degrees := degreesOpt.getD (List.replicate m 2)
  if degrees.length ≠ m then none
  else some (if degrees = List.replicate m 2 then List.replicate mReduced 2 else degrees)

/-- C3 counterexample: for `MQProblem(n=10, m=5, q=3)` the raw equation count
is `5` while the reduced count is `4` (the doctest in the source shows
`degree_of_polynomials()` returning `[2, 2, 2, 2]`).  A `degrees` list of
length `4` equals the reduced count, so by the claim construction should
succeed, but the source compares against the raw `m = 5` and raises. -/
theorem F5_init_degrees_counterexample :
    ¬ (F5.init_degrees 5 4 (some [2, 2, 2, 2]) = none ↔
        ([2, 2, 2, 2] : List ℕ).length ≠ 4) := by
  decide

/-- C3 (amended): constructing F5 with an explicit degrees list raises exactly
when the list's length differs from the raw equation count
`problem.npolynomials()` (not the reduced count); in particular
`degrees=[2,2]` with `m = 5` raises because `2 ≠ 5`. -/
theorem F5_init_degrees_length_check (m mReduced : ℕ) (degrees : List ℕ) :
    (F5.init_degrees m mReduced (some degrees) = none ↔ degrees.length ≠ m) ∧
    F5.init_degrees 5 4 (some [2, 2]) = none := by
  constructor
  · by_cases hl : degrees.length = m <;> simp [F5.init_degrees, hl]
  · decide

/-- C4: for every valid (non-underdefined, `m ≥ 1`, `n ≥ 1`) input state, the
soft-O time and memory complexities of F5 never exceed the classical ones:
the classical time only adds the non-negative `log2 m` correction and the
non-decreasing `log2 (n·D³)` versus `log2 (D³)` FGLM argument, and the
classical memory is a `max` containing the soft-O memory as one branch. -/
theorem F5_tilde_o_le_classical (s : F5State) (hu : s.underdefined = false)
    (hm : 1 ≤ s.m) (hn : 1 ≤ s.n) :
    (∃ t tt : ℝ, F5.compute_time_complexity s = some t ∧
      F5.compute_tilde_o_time_complexity s = some tt ∧ tt ≤ t) ∧
    (∃ v vt : ℝ, F5.compute_memory_complexity s = some v ∧
      F5.compute_tilde_o_memory_complexity s = some vt ∧ vt ≤ v) := by
  constructor
  · refine ⟨s.h * logb 2 (s.q : ℝ) +
        max (s.w * logb 2 (s.ncols : ℝ) + logb 2 (s.m : ℝ)) (F5.time_complexity_fglm s),
      s.h * logb 2 (s.q : ℝ) +
        max (s.w * logb 2 (s.ncols : ℝ)) (F5.tilde_o_time_complexity_fglm s),
      by simp [F5.compute_time_complexity, hu],
      by simp [F5.compute_tilde_o_time_complexity, hu], ?_⟩
    have hlm : (0 : ℝ) ≤ logb 2 (s.m : ℝ) :=
      logb_nonneg (by norm_num) (by exact_mod_cast hm)
    have hpos : (0 : ℝ) < (((2 ^ s.nsolutions) ^ 3 : ℕ) : ℝ) := by
      have : 0 < ((2 ^ s.nsolutions) ^ 3 : ℕ) := by positivity
      exact_mod_cast this
    have hdd : logb 2 (((2 ^ s.nsolutions) ^ 3 : ℕ) : ℝ) ≤
        logb 2 ((s.n * (2 ^ s.nsolutions) ^ 3 : ℕ) : ℝ) := by
      refine logb_le_logb_of_le (by norm_num) hpos ?_
      exact_mod_cast Nat.le_mul_of_pos_left _ hn
    simp only [F5.time_complexity_fglm, F5.tilde_o_time_complexity_fglm]
    exact add_le_add_left
      (max_le_max (le_add_of_nonneg_right hlm) (add_le_add_left hdd _)) _
  · exact ⟨_, _, rfl, rfl, le_max_left _ _⟩

/-- Witness for C4's theorem at a concrete valid state. -/
theorem F5_tilde_o_le_classical_witness :
    (∃ t tt : ℝ, F5.compute_time_complexity ⟨1, 1, 2, 1, 0, 0, 2, false⟩ = some t ∧
      F5.compute_tilde_o_time_complexity ⟨1, 1, 2, 1, 0, 0, 2, false⟩ = some tt ∧ tt ≤ t) ∧
    (∃ v vt : ℝ, F5.compute_memory_complexity ⟨1, 1, 2, 1, 0, 0, 2, false⟩ = some v ∧
      F5.compute_tilde_o_memory_complexity ⟨1, 1, 2, 1, 0, 0, 2, false⟩ = some vt ∧ vt ≤ v) :=
  F5_tilde_o_le_classical ⟨1, 1, 2, 1, 0, 0, 2, false⟩ rfl (by norm_num) (by norm_num)

/-- C5: for every input state, F5's classical memory complexity equals
`max (2·log2 ncols) (log2 (m·n²))` and its soft-O memory complexity equals
`2·log2 ncols`. -/
theorem F5_memory_complexity_closed_form (s : F5State) :
    F5.compute_memory_complexity s =
      some (max (2 * logb 2 (s.ncols : ℝ)) (logb 2 ((s.m * s.n ^ 2 : ℕ) : ℝ))) ∧
    F5.compute_tilde_o_memory_complexity s = some (2 * logb 2 (s.ncols : ℝ)) := by
  constructor <;>
    simp [F5.compute_memory_complexity, F5.compute_tilde_o_memory_complexity, mul_comm]

/-- Embedding of `OJ1._compute_time_complexity` over the RSD parameters
`(q, m, n, k, r)` (Python integers, so `ℤ`) and the linear-algebra constant
`w`: `w * log2(m * r) + (r - 1) * (k + 1) * log2(q)`. -/
noncomputable def OJ1.time_complexity (w : ℝ) (q m n k r : ℤ) : ℝ :=
  w * logb 2 ((m * r : ℤ) : ℝ) + (((r - 1) * (k + 1) : ℤ) : ℝ) * logb 2 (q : ℝ)

/-- Embedding of `OJ1._compute_memory_complexity`:
`cm = ceil(((r - 1) * m + k + 1) / (m - 1))`, `n_rows = cm * m`,
`n_columns = (r - 1) * m + k + cm + 1`, result `log2(n_rows * n_columns)`.
The Python division raises `ZeroDivisionError` when `m - 1 = 0`, embedded as
`none`; the exact rational ceiling models Python's `ceil` of the float
quotient. -/
noncomputable def OJ1.memory_complexity (q m n k r : ℤ) : Option ℝ :=
  if m - 1 = 0 then none
  else
    let cm : ℤ := ⌈(((r - 1) * m + k + 1 : ℤ) : ℚ) / ((m - 1 : ℤ) : ℚ)⌉
    let n_rows : ℤ := cm * m
    let n_columns : ℤ := (r - 1) * m + k + cm + 1
    some (logb 2 ((n_rows * n_columns : ℤ) : ℝ))

/-- Embedding of `OJ2._compute_time_complexity`:
`w * (log2(k + r) + log2(r)) + (r - 1) * (m - r) * log2(q)`. -/
noncomputable def OJ2.time_complexity (w : ℝ) (q m n k r : ℤ) : ℝ :=
  w * (logb 2 ((k + r : ℤ) : ℝ) + logb 2 (r : ℝ)) +
    (((r - 1) * (m - r) : ℤ) : ℝ) * logb 2 (q : ℝ)

/-- Embedding of `OJ2._compute_memory_complexity`:
`cm = ceil(((k + 1) * r) / (m - r))`, `n_rows = cm * m`,
`n_columns = (k + 1 + cm) * r`, result `log2(n_rows * n_columns)`; the
division raises when `m - r = 0`, embedded as `none`. -/
noncomputable def OJ2.memory_complexity (q m n k r : ℤ) : Option ℝ :=
  if m - r = 0 then none
  else
    let cm : ℤ := ⌈(((k + 1) * r : ℤ) : ℚ) / ((m - r : ℤ) : ℚ)⌉
    let n_rows : ℤ := cm * m
    let n_columns : ℤ := (k + 1 + cm) * r
    some (logb 2 ((n_rows * n_columns : ℤ) : ℝ))

/-- C6: OJ1's time complexity equals `w·log2(m·r) + (r−1)(k+1)·log2 q`, and
(whenever the division is defined, i.e. `m ≠ 1`) its memory complexity equals
`log2(n_rows·n_columns)` with `cm = ceil(((r−1)m + k + 1)/(m−1))`,
`n_rows = cm·m`, `n_columns = (r−1)m + k + cm + 1`. -/
theorem OJ1_complexity_formulas (w : ℝ) (q m n k r : ℤ) (hm : m - 1 ≠ 0) :
    OJ1.time_complexity w q m n k r =
      w * logb 2 ((m * r : ℤ) : ℝ) + (((r - 1) * (k + 1) : ℤ) : ℝ) * logb 2 (q : ℝ) ∧
    ∃ cm : ℤ, cm = ⌈(((r - 1) * m + k + 1 : ℤ) : ℚ) / ((m - 1 : ℤ) : ℚ)⌉ ∧
      OJ1.memory_complexity q m n k r =
        some (logb 2 (((cm * m) * ((r - 1) * m + k + cm + 1) : ℤ) : ℝ)) := by
  refine ⟨rfl, _, rfl, ?_⟩
  simp [OJ1.memory_complexity, hm]

/-- Witness for C6's theorem at `w = 3, (q, m, n, k, r) = (2, 2, 3, 1, 2)`. -/
theorem OJ1_complexity_formulas_witness :
    (2 : ℤ) - 1 ≠ 0 ∧
    (OJ1.time_complexity 3 2 2 3 1 2 =
      3 * logb 2 (((2 : ℤ) * 2 : ℤ) : ℝ) +
        ((((2 : ℤ) - 1) * (1 + 1) : ℤ) : ℝ) * logb 2 ((2 : ℤ) : ℝ) ∧
    ∃ cm : ℤ, cm = ⌈((((2 : ℤ) - 1) * 2 + 1 + 1 : ℤ) : ℚ) / (((2 : ℤ) - 1 : ℤ) : ℚ)⌉ ∧
      OJ1.memory_complexity 2 2 3 1 2 =
        some (logb 2 (((cm * 2) * ((2 - 1) * 2 + 1 + cm + 1) : ℤ) : ℝ))) :=
  ⟨by norm_num, OJ1_complexity_formulas 3 2 2 3 1 2 (by norm_num)⟩

/-- C7: OJ2's time complexity equals
`w·(log2(k+r) + log2 r) + (r−1)(m−r)·log2 q`, and (whenever the division is
defined, i.e. `m ≠ r`) its memory complexity equals `log2(n_rows·n_columns)`
with `cm = ceil(((k+1)·r)/(m−r))`, `n_rows = cm·m`,
`n_columns = (k+1+cm)·r`. -/
theorem OJ2_complexity_formulas (w : ℝ) (q m n k r : ℤ) (hm : m - r ≠ 0) :
    OJ2.time_complexity w q m n k r =
      w * (logb 2 ((k + r : ℤ) : ℝ) + logb 2 (r : ℝ)) +
        (((r - 1) * (m - r) : ℤ) : ℝ) * logb 2 (q : ℝ) ∧
    ∃ cm : ℤ, cm = ⌈(((k + 1) * r : ℤ) : ℚ) / ((m - r : ℤ) : ℚ)⌉ ∧
      OJ2.memory_complexity q m n k r =
        some (logb 2 (((cm * m) * ((k + 1 + cm) * r) : ℤ) : ℝ)) := by
  refine ⟨rfl, _, rfl, ?_⟩
  simp [OJ2.memory_complexity, hm]

/-- Witness for C7's theorem at `w = 3, (q, m, n, k, r) = (2, 3, 4, 1, 2)`. -/
theorem OJ2_complexity_formulas_witness :
    (3 : ℤ) - 2 ≠ 0 ∧
    (OJ2.time_complexity 3 2 3 4 1 2 =
      3 * (logb 2 (((1 : ℤ) + 2 : ℤ) : ℝ) + logb 2 ((2 : ℤ) : ℝ)) +
        ((((2 : ℤ) - 1) * (3 - 2) : ℤ) : ℝ) * logb 2 ((2 : ℤ) : ℝ) ∧
    ∃ cm : ℤ, cm = ⌈((((1 : ℤ) + 1) * 2 : ℤ) : ℚ) / (((3 : ℤ) - 2 : ℤ) : ℚ)⌉ ∧
      OJ2.memory_complexity 2 3 4 1 2 =
        some (logb 2 (((cm * 3) * ((1 + 1 + cm) * 2) : ℤ) : ℝ))) :=
  ⟨by norm_num, OJ2_complexity_formulas 3 2 3 4 1 2 (by norm_num)⟩

/-- C10: the time and memory complexities of OJ1 and OJ2 do not depend on the
code length `n`: two parameter tuples agreeing on `q, m, k, r` and differing
only in `n` yield identical values for all four embedded functions. -/
theorem OJ_complexities_independent_of_n (w : ℝ) (q m k r n1 n2 : ℤ) :
    OJ1.time_complexity w q m n1 k r = OJ1.time_complexity w q m n2 k r ∧
    OJ1.memory_complexity q m n1 k r = OJ1.memory_complexity q m n2 k r ∧
    OJ2.time_complexity w q m n1 k r = OJ2.time_complexity w q m n2 k r ∧
    OJ2.memory_complexity q m n1 k r = OJ2.memory_complexity q m n2 k r :=
  ⟨rfl, rfl, rfl, rfl⟩

/-- C9: with positive parameters, OJ1's memory computation is undefined
(raises) exactly at `m = 1` and OJ2's at `m = r`; under `m ≥ 2`
(respectively `m > r`) the argument of `log2` is a positive integer and the
computation returns a value. -/
theorem OJ_memory_partiality (q m n k r : ℤ)
    (hq : 1 ≤ q) (hn : 1 ≤ n) (hk : 1 ≤ k) (hr : 1 ≤ r) :
    (m = 1 → OJ1.memory_complexity q m n k r = none) ∧
    (m = r → OJ2.memory_complexity q m n k r = none) ∧
    (2 ≤ m → ∃ A : ℤ, 0 < A ∧
      OJ1.memory_complexity q m n k r = some (logb 2 (A : ℝ))) ∧
    (r < m → ∃ A : ℤ, 0 < A ∧
      OJ2.memory_complexity q m n k r = some (logb 2 (A : ℝ))) := by
  refine ⟨?_, ?_, ?_, ?_⟩
  · rintro rfl
    simp [OJ1.memory_complexity]
  · rintro rfl
    simp [OJ2.memory_complexity]
  · intro hm2
    have hm : m - 1 ≠ 0 := by omega
    set cm : ℤ := ⌈(((r - 1) * m + k + 1 : ℤ) : ℚ) / ((m - 1 : ℤ) : ℚ)⌉ with hcm
    have hnum : (0 : ℤ) < (r - 1) * m + k + 1 := by
      have : (0 : ℤ) ≤ (r - 1) * m := mul_nonneg (by omega) (by omega)
      omega
    have hcmpos : 0 < cm := by
      rw [hcm]
      rw [Int.ceil_pos]
      apply div_pos
      · exact_mod_cast hnum
      · have : (0 : ℤ) < m - 1 := by omega
        exact_mod_cast this
    refine ⟨(cm * m) * ((r - 1) * m + k + cm + 1), ?_, ?_⟩
    · have h1 : (0 : ℤ) < cm * m := mul_pos hcmpos (by omega)
      have h2 : (0 : ℤ) < (r - 1) * m + k + cm + 1 := by
        have : (0 : ℤ) ≤ (r - 1) * m := mul_nonneg (by omega) (by omega)
        omega
      exact mul_pos h1 h2
    · simp [OJ1.memory_complexity, hm, hcm]
  · intro hmr
    have hm : m - r ≠ 0 := by omega
    set cm : ℤ := ⌈(((k + 1) * r : ℤ) : ℚ) / ((m - r : ℤ) : ℚ)⌉ with hcm
    have hnum : (0 : ℤ) < (k + 1) * r := mul_pos (by omega) (by omega)
    have hcmpos : 0 < cm := by
      rw [hcm]
      rw [Int.ceil_pos]
      apply div_pos
      · exact_mod_cast hnum
      · have : (0 : ℤ) < m - r := by omega
        exact_mod_cast this
    refine ⟨(cm * m) * ((k + 1 + cm) * r), ?_, ?_⟩
    · have h1 : (0 : ℤ) < cm * m := mul_pos hcmpos (by omega)
      have h2 : (0 : ℤ) < (k + 1 + cm) * r := mul_pos (by omega) (by omega)
      exact mul_pos h1 h2
    · simp [OJ2.memory_complexity, hm, hcm]

/-- Witness for C9's theorem at `(q, m, n, k, r) = (2, 3, 4, 1, 2)`. -/
theorem OJ_memory_partiality_witness :
    (1 : ℤ) ≤ 2 ∧
    (((3 : ℤ) = 1 → OJ1.memory_complexity 2 3 4 1 2 = none) ∧
    ((3 : ℤ) = 2 → OJ2.memory_complexity 2 3 4 1 2 = none) ∧
    ((2 : ℤ) ≤ 3 → ∃ A : ℤ, 0 < A ∧
      OJ1.memory_complexity 2 3 4 1 2 = some (logb 2 (A : ℝ))) ∧
    ((2 : ℤ) < 3 → ∃ A : ℤ, 0 < A ∧
      OJ2.memory_complexity 2 3 4 1 2 = some (logb 2 (A : ℝ)))) :=
  ⟨by norm_num,
    OJ_memory_partiality 2 3 4 1 2 (by norm_num) (by norm_num) (by norm_num) (by norm_num)⟩

/-- Embedding of `PEProblem.expected_number_solutions` over the parameters
`(n, k, q)`: `log2(q) * k * k + log2(factorial(n)) - log2(q) * n * k`. -/
noncomputable def PEProblem.expected_number_solutions (n k q : ℕ) : ℝ :=
  logb 2 (q : ℝ) * (k : ℝ) * (k : ℝ) + logb 2 (n.factorial : ℝ) -
    logb 2 (q : ℝ) * (n : ℝ) * (k : ℝ)

/-- Embedding of the `nsolutions` assignment in `PEProblem.__init__`:
`kwargs.get("nsolutions", max(self.expected_number_solutions(), 0))`. -/
noncomputable def PEProblem.nsolutions_init (n k q : ℕ) (ns : Option ℝ) : ℝ :=
  ns.getD (max (PEProblem.expected_number_solutions n k q) 0)

/-- C8: for PE parameters `n ≥ 1`, `k ≤ n`, `q ≥ 2`, the expected number of
solutions equals `log2(q)·k² + log2(n!) − log2(q)·n·k`, and when no
`nsolutions` is supplied the stored value is `max(expected, 0)`, hence
non-negative. -/
theorem PE_expected_solutions_default (n k q : ℕ)
    (hn : 1 ≤ n) (hk : k ≤ n) (hq : 2 ≤ q) :
    PEProblem.expected_number_solutions n k q =
      logb 2 (q : ℝ) * (k : ℝ) ^ 2 + logb 2 (n.factorial : ℝ) -
        logb 2 (q : ℝ) * (n : ℝ) * (k : ℝ) ∧
    PEProblem.nsolutions_init n k q none =
      max (PEProblem.expected_number_solutions n k q) 0 ∧
    0 ≤ PEProblem.nsolutions_init n k q none := by
  refine ⟨?_, rfl, ?_⟩
  · simp [PEProblem.expected_number_solutions]
    ring
  · exact le_max_right _ _

/-- Witness for C8's theorem at `(n, k, q) = (2, 1, 2)`. -/
theorem PE_expected_solutions_default_witness :
    (1 ≤ 2 ∧ 1 ≤ 2 ∧ 2 ≤ 2) ∧
    (PEProblem.expected_number_solutions 2 1 2 =
      logb 2 ((2 : ℕ) : ℝ) * ((1 : ℕ) : ℝ) ^ 2 + logb 2 ((2 : ℕ).factorial : ℝ) -
        logb 2 ((2 : ℕ) : ℝ) * ((2 : ℕ) : ℝ) * ((1 : ℕ) : ℝ) ∧
    PEProblem.nsolutions_init 2 1 2 none =
      max (PEProblem.expected_number_solutions 2 1 2) 0 ∧
    0 ≤ PEProblem.nsolutions_init 2 1 2 none) :=
  ⟨⟨by norm_num, by norm_num, by norm_num⟩,
    PE_expected_solutions_default 2 1 2 (by norm_num) (by norm_num) (by norm_num)⟩

end CryptographicEstimators
